import Mathlib

/-!
Shallow embedding of the eDNA k-mer matching engine from
`scripts/edna_matcher.py` (class `eDNAMatcher`), together with theorems
checking the specification's claims about it.

Sequences are modelled as lists of characters, Python dictionaries and
`collections.Counter` objects as association lists that preserve insertion
order, and floating-point scores as rational numbers.
-/

/-- The test `base in 'ATGC'` used by `generate_kmers`. -/
def validBase (c : Char) : Bool :=
  c == 'A' || c == 'T' || c == 'G' || c == 'C'

/-- Python `str.upper` on one character (ASCII range, the only case the
    DNA data exercises). -/
def pyUpperChar (c : Char) : Char :=
  if 97 ≤ c.toNat ∧ c.toNat ≤ 122 then Char.ofNat (c.toNat - 32) else c

/-- Python `str.lower` on one character (ASCII range). -/
def pyLowerChar (c : Char) : Char :=
  if 65 ≤ c.toNat ∧ c.toNat ≤ 90 then Char.ofNat (c.toNat + 32) else c

/-- The ASCII whitespace characters removed by Python `str.strip()`. -/
def pyIsSpace (c : Char) : Bool :=
  c == ' ' || c == '\t' || c == '\n' || c == '\r' || c == '\x0b' || c == '\x0c'

/-- Python `str.strip()`: drop leading and trailing whitespace. -/
def pyStrip (s : List Char) : List Char :=
  ((s.dropWhile pyIsSpace).reverse.dropWhile pyIsSpace).reverse

/-- The normalization `sequence.upper().strip()` performed at the top of
    `generate_kmers`. -/
def pyNormalize (s : List Char) : List Char :=
  pyStrip (s.map pyUpperChar)

/-- Python slice `s[start:stop]` with a non-negative `start` index and an
    arbitrary (possibly negative, possibly out-of-range) `stop` index. -/
def pySliceStop (s : List Char) (start : Nat) (stop : Int) : List Char :=
  let stopN : Nat := if stop < 0 then ((s.length : Int) + stop).toNat else min stop.toNat s.length
  (s.take stopN).drop start

/-- `eDNAMatcher.generate_kmers`: normalize, slide a window of width `k`
    (the loop `for i in range(len(sequence) - self.k + 1)` over slices
    `sequence[i:i+k]`), and keep only windows made of valid DNA bases. -/
def generate_kmers (k : Int) (sequence : List Char) : List (List Char) :=
  let s := pyNormalize sequence
  (List.range ((s.length : Int) - k + 1).toNat).filterMap fun i =>
    let kmer := pySliceStop s i ((i : Int) + k)
    if kmer.all validBase then some kmer else none

/-- The unfiltered sliding windows of `generate_kmers` (before the
    valid-base test). -/
def kmerWindows (k : Int) (sequence : List Char) : List (List Char) :=
  let s := pyNormalize sequence
  (List.range ((s.length : Int) - k + 1).toNat).map fun i => pySliceStop s i ((i : Int) + k)

/-- A k-mer is a list of characters. -/
abbrev Kmer := List Char

/-- A `collections.Counter` over k-mers: an insertion-ordered association
    list from k-mer to count. -/
abbrev KmerCounter := List (Kmer × Nat)

/-- Dictionary lookup on an association list (first matching key). -/
def alookup {α β : Type} [DecidableEq α] (k : α) : List (α × β) → Option β
  | [] => none
  | p :: l => if p.1 = k then some p.2 else alookup k l

/-- Update the value stored at the first occurrence of a key. -/
def aupdate {α β : Type} [DecidableEq α] (k : α) (f : β → β) : List (α × β) → List (α × β)
  | [] => []
  | p :: l => if p.1 = k then (p.1, f p.2) :: l else p :: aupdate k f l

/-- `counter[kmer] += 1`: increment in place, inserting a new key (count 1)
    at the end on first occurrence. -/
def cincr : KmerCounter → Kmer → KmerCounter
  | [], km => [(km, 1)]
  | p :: l, km => if p.1 = km then (p.1, p.2 + 1) :: l else p :: cincr l km

/-- `Counter(kmer_list)`. -/
def counterOf (l : List Kmer) : KmerCounter :=
  l.foldl cincr []

/-- The keys of a counter, in insertion order. -/
def ckeys (c : KmerCounter) : List Kmer :=
  c.map Prod.fst

/-- `counter[kmer]` read access (0 for a missing key, as `Counter` does). -/
def cget (c : KmerCounter) (km : Kmer) : Nat :=
  (alookup km c).getD 0

/-- Well-formedness of a counter as produced by the engine: keys are
    distinct and every stored count is positive. -/
def CounterWF (c : KmerCounter) : Prop :=
  (ckeys c).Nodup ∧ ∀ p ∈ c, 0 < p.2

/-- `eDNAMatcher.calculate_match_score`: Jaccard similarity of the key sets
    blended 70/30 with the average frequency ratio over common k-mers. -/
def calculate_match_score (query_kmers reference_kmers : KmerCounter) : ℚ :=
  if query_kmers.isEmpty || reference_kmers.isEmpty then 0
  else
    let qkeys := (ckeys query_kmers).dedup
    let rkeys := (ckeys reference_kmers).dedup
    let common := qkeys.filter fun km => decide (km ∈ rkeys)
    let intersection := common.length
    let union := ((ckeys query_kmers) ++ (ckeys reference_kmers)).dedup.length
    if union = 0 then 0
    else
      let jaccard_score : ℚ := ((intersection : ℚ) / (union : ℚ)) * 100
      if common.isEmpty then jaccard_score
      else
        let frequency_score : ℚ :=
          (((common.map fun km =>
              ((min (cget query_kmers km) (cget reference_kmers km) : ℚ)) /
               ((max (cget query_kmers km) (cget reference_kmers km) : ℚ))).sum) /
            (common.length : ℚ)) * 100
        jaccard_score * (7 / 10) + frequency_score * (3 / 10)

/-- `eDNAMatcher.get_confidence_level`. -/
def get_confidence_level (score : ℚ) : String :=
  if 85 ≤ score then "high"
  else if 70 ≤ score then "medium"
  else if 50 ≤ score then "low"
  else "very_low"

/-- Round-half-to-even on a rational, the rounding rule of Python `round`. -/
def roundHalfEven (q : ℚ) : ℤ :=
  let f := ⌊q⌋
  if q - (f : ℚ) < 1 / 2 then f
  else if (1 : ℚ) / 2 < q - (f : ℚ) then f + 1
  else if f % 2 = 0 then f else f + 1

/-- Python `round(q, 2)`. -/
def pyRound2 (q : ℚ) : ℚ :=
  ((roundHalfEven (q * 100) : ℤ) : ℚ) / 100

/-- The display metadata stored per species in `self.species_info`. -/
structure SpeciesInfo where
  scientific_name : String
  common_name : String
  phylum : String
deriving DecidableEq

/-- One result dictionary appended to `matches` in `match_sequence`. -/
structure ScoredMatch where
  species_id : String
  scientific_name : String
  common_name : String
  phylum : String
  matching_score : ℚ
  confidence_level : String
  query_length : Nat
  query_kmers : Nat
deriving DecidableEq

/-- The state of an `eDNAMatcher` instance. -/
structure eDNAMatcher where
  k : Int
  min_score : ℚ
  reference_db : List (String × KmerCounter)
  species_info : List (String × SpeciesInfo)

/-- `eDNAMatcher.__init__`: stores `k` and `min_score` unvalidated, with
    empty reference and species tables. -/
def eDNAMatcher.init (k : Int) (min_score : ℚ) : eDNAMatcher :=
  ⟨k, min_score, [], []⟩

/-- The body of the loop over `self.reference_db.items()` in
    `match_sequence`: score one species and build its result dictionary if
    the score clears `self.min_score`. -/
def mkEntry (m : eDNAMatcher) (query_kmers : KmerCounter) (qlen : Nat)
    (sid : String) (rk : KmerCounter) : Option ScoredMatch :=
  let score := calculate_match_score query_kmers rk
  if m.min_score ≤ score then
    let info := (alookup sid m.species_info).getD ⟨"Unknown", "Unknown", "Unknown"⟩
    some ⟨sid, info.scientific_name, info.common_name, info.phylum,
          pyRound2 score, get_confidence_level score, qlen, query_kmers.length⟩
  else none

/-- The `matches` list of `match_sequence` before sorting and truncation. -/
def candidates (m : eDNAMatcher) (query_kmers : KmerCounter) (qlen : Nat) : List ScoredMatch :=
  m.reference_db.filterMap fun p => mkEntry m query_kmers qlen p.1 p.2

/-- Stable insertion used to model Python `list.sort(key=..., reverse=True)`:
    an element moves left past exactly the elements with a strictly smaller
    key. -/
def insertDesc {α : Type} (key : α → ℚ) (a : α) : List α → List α
  | [] => [a]
  | b :: l => if key a < key b then b :: insertDesc key a l else a :: b :: l

/-- Stable descending sort by key; agrees with Python `list.sort` with
    `reverse=True` because both are stable. -/
def sortByDesc {α : Type} (key : α → ℚ) : List α → List α
  | [] => []
  | a :: l => insertDesc key a (sortByDesc key l)

/-- Python slice `l[:n]` for an arbitrary integer `n`. -/
def pySliceTo {α : Type} (l : List α) (n : Int) : List α :=
  if n < 0 then l.take ((l.length : Int) + n).toNat else l.take n.toNat

/-- `eDNAMatcher.match_sequence`. -/
def match_sequence (m : eDNAMatcher) (query_sequence : List Char) (top_n : Int) : List ScoredMatch :=
  let query_kmers := counterOf (generate_kmers m.k query_sequence)
  if query_kmers.isEmpty then []
  else
    pySliceTo
      (sortByDesc (fun x => x.matching_score) (candidates m query_kmers query_sequence.length))
      top_n

/-- One document of the `edna_sequences` collection, as read by
    `build_reference_database`. -/
structure SeqRecord where
  matched_species_id : String
  sequence : List Char

/-- One document of the `taxonomy_data` collection; the fields read through
    `.get` may be absent. -/
structure TaxRecord where
  species_id : String
  species : Option String
  common_name : Option String
  phylum : Option String

/-- `taxonomy_collection.find_one({"species_id": species_id})`. -/
def find_one_taxonomy (tax : List TaxRecord) (sid : String) : Option TaxRecord :=
  tax.find? fun r => r.species_id == sid

/-- The inner loop `for kmer in kmers: counter[kmer] += 1`. -/
def addKmers (c : KmerCounter) (kmers : List Kmer) : KmerCounter :=
  kmers.foldl cincr c

/-- The body of the loop over `sequences` in `build_reference_database`. -/
def buildStep (tax : List TaxRecord) (m : eDNAMatcher) (sr : SeqRecord) : eDNAMatcher :=
  let kmers := generate_kmers m.k sr.sequence
  let db0 :=
    if (alookup sr.matched_species_id m.reference_db).isSome then m.reference_db
    else m.reference_db ++ [(sr.matched_species_id, [])]
  let db1 := aupdate sr.matched_species_id (fun c => addKmers c kmers) db0
  let si :=
    if (alookup sr.matched_species_id m.species_info).isSome then m.species_info
    else
      match find_one_taxonomy tax sr.matched_species_id with
      | some r =>
          m.species_info ++
            [(sr.matched_species_id,
              ⟨r.species.getD "Unknown", r.common_name.getD "Unknown", r.phylum.getD "Unknown"⟩)]
      | none => m.species_info
  ⟨m.k, m.min_score, db1, si⟩

/-- `eDNAMatcher.build_reference_database` over in-memory collections. -/
def build_reference_database (m : eDNAMatcher) (seqs : List SeqRecord)
    (tax : List TaxRecord) : eDNAMatcher :=
  seqs.foldl (buildStep tax) m

/-- A concrete reference profile `{A: 1, C: 1, G: 1}` used for boundary
    examples with `k = 1`. -/
def acgProfile : KmerCounter :=
  [(("A".data : Kmer), 1), (("C".data : Kmer), 1), (("G".data : Kmer), 1)]

/-- A one-species matcher with `k = 1` over `acgProfile` and a given score
    floor. -/
def acgMatcher (ms : ℚ) : eDNAMatcher :=
  eDNAMatcher.mk 1 ms [("SP", acgProfile)] []

/-- A key is found by `alookup` exactly when it occurs among the keys. -/
theorem alookup_isSome_iff {α β : Type} [DecidableEq α] (k : α) (l : List (α × β)) :
    (alookup k l).isSome ↔ k ∈ l.map Prod.fst := by
  induction l with
  | nil => simp [alookup]
  | cons p l ih =>
    by_cases h : p.1 = k
    · simp [alookup, h]
    · simp [alookup, h, ih, Ne.symm h]

/-- A successful `alookup` returns the value of an actual entry. -/
theorem alookup_mem {α β : Type} [DecidableEq α] {k : α} {l : List (α × β)} {v : β}
    (h : alookup k l = some v) : (k, v) ∈ l := by
  induction l with
  | nil => simp [alookup] at h
  | cons p l ih =>
    rcases p with ⟨a, b⟩
    by_cases hp : a = k
    · subst hp
      simp [alookup] at h
      subst h
      exact List.mem_cons_self _ _
    · rw [alookup, if_neg hp] at h
      exact List.mem_cons_of_mem _ (ih h)

/-- Dictionary lookup distributes over list append. -/
theorem alookup_append {α β : Type} [DecidableEq α] (k : α) (l₁ l₂ : List (α × β)) :
    alookup k (l₁ ++ l₂) =
      match alookup k l₁ with
      | some v => some v
      | none => alookup k l₂ := by
  induction l₁ with
  | nil => simp [alookup]
  | cons p l ih =>
    by_cases h : p.1 = k
    · simp [alookup, h]
    · simp [alookup, h, ih]

/-- `aupdate` does not change the key sequence. -/
theorem aupdate_keys {α β : Type} [DecidableEq α] (k : α) (f : β → β) (l : List (α × β)) :
    (aupdate k f l).map Prod.fst = l.map Prod.fst := by
  induction l with
  | nil => rfl
  | cons p l ih =>
    by_cases h : p.1 = k
    · simp [aupdate, h]
    · simp [aupdate, h, ih]

/-- Membership in an updated association list comes from an original entry,
    either untouched or with the function applied. -/
theorem mem_aupdate {α β : Type} [DecidableEq α] {k : α} {f : β → β} {l : List (α × β)}
    {p : α × β} (h : p ∈ aupdate k f l) :
    p ∈ l ∨ ∃ v, (p.1, v) ∈ l ∧ p = (p.1, f v) := by
  induction l with
  | nil => simp [aupdate] at h
  | cons q l ih =>
    by_cases hq : q.1 = k
    · rw [aupdate, if_pos hq] at h
      rcases List.mem_cons.mp h with h | h
      · right
        exact ⟨q.2, by simp [h], by simp [h]⟩
      · exact Or.inl (List.mem_cons_of_mem _ h)
    · rw [aupdate, if_neg hq] at h
      rcases List.mem_cons.mp h with h | h
      · exact Or.inl (by simp [h])
      · rcases ih h with h2 | ⟨v, hv, hp⟩
        · exact Or.inl (List.mem_cons_of_mem _ h2)
        · exact Or.inr ⟨v, List.mem_cons_of_mem _ hv, hp⟩

/-- The keys after a `cincr` are the old keys, extended by the incremented
    k-mer when it is new. -/
theorem ckeys_cons (p : Kmer × Nat) (l : KmerCounter) :
    ckeys (p :: l) = p.1 :: ckeys l :=
  rfl

/-- The keys after a `cincr` are the old keys, extended by the incremented
    k-mer when it is new. -/
theorem ckeys_cincr (c : KmerCounter) (km : Kmer) :
    ckeys (cincr c km) = if km ∈ ckeys c then ckeys c else ckeys c ++ [km] := by
  induction c with
  | nil => simp [cincr, ckeys]
  | cons p l ih =>
    by_cases h : p.1 = km
    · simp only [cincr, if_pos h, ckeys_cons]
      rw [if_pos (by rw [h]; exact List.mem_cons_self _ _)]
    · have hne : ¬ km = p.1 := fun hk => h hk.symm
      simp only [cincr, if_neg h, ckeys_cons, ih]
      by_cases hm : km ∈ ckeys l
      · rw [if_pos hm, if_pos (List.mem_cons.mpr (Or.inr hm))]
      · rw [if_neg hm, if_neg (by simp [List.mem_cons, hne, hm]), List.cons_append]

/-- `cincr` preserves positivity of all stored counts. -/
theorem cincr_pos {c : KmerCounter} (hc : ∀ p ∈ c, 0 < p.2) (km : Kmer) :
    ∀ p ∈ cincr c km, 0 < p.2 := by
  induction c with
  | nil =>
    intro p hp
    simp [cincr] at hp
    simp [hp]
  | cons q l ih =>
    intro p hp
    by_cases h : q.1 = km
    · rw [cincr, if_pos h] at hp
      rcases List.mem_cons.mp hp with hp | hp
      · simp [hp]
      · exact hc p (List.mem_cons_of_mem _ hp)
    · rw [cincr, if_neg h] at hp
      rcases List.mem_cons.mp hp with hp | hp
      · exact hc p (by simp [hp])
      · exact ih (fun r hr => hc r (List.mem_cons_of_mem _ hr)) p hp

/-- `cincr` preserves distinctness of the keys. -/
theorem cincr_nodup {c : KmerCounter} (hc : (ckeys c).Nodup) (km : Kmer) :
    (ckeys (cincr c km)).Nodup := by
  rw [ckeys_cincr]
  by_cases h : km ∈ ckeys c
  · simpa [h] using hc
  · simp only [h, if_false]
    simpa [List.nodup_append] using ⟨hc, h⟩

/-- `cincr` never returns an empty counter. -/
theorem cincr_ne_nil (c : KmerCounter) (km : Kmer) : cincr c km ≠ [] := by
  cases c with
  | nil => simp [cincr]
  | cons p l =>
    by_cases h : p.1 = km
    · simp [cincr, h]
    · simp [cincr, h]

/-- Counters accumulated by `cincr` from a well-formed start stay
    well-formed. -/
theorem addKmers_wf {c : KmerCounter} (hc : CounterWF c) (l : List Kmer) :
    CounterWF (addKmers c l) := by
  induction l generalizing c with
  | nil => exact hc
  | cons km l ih =>
    exact ih ⟨cincr_nodup hc.1 km, cincr_pos hc.2 km⟩

/-- Every counter built by `Counter(...)` is well-formed. -/
theorem counterOf_wf (l : List Kmer) : CounterWF (counterOf l) := by
  simpa [counterOf, addKmers] using @addKmers_wf [] ⟨by simp [ckeys], by simp⟩ l

/-- `Counter(l)` is empty exactly when `l` is empty. -/
theorem counterOf_eq_nil_iff (l : List Kmer) : counterOf l = [] ↔ l = [] := by
  have hfold : ∀ (rest : List Kmer) (c : KmerCounter), c ≠ [] → rest.foldl cincr c ≠ [] := by
    intro rest
    induction rest with
    | nil =>
      intro c hc
      simpa using hc
    | cons x xs ih =>
      intro c hc
      exact ih (cincr c x) (cincr_ne_nil c x)
  cases l with
  | nil => simp [counterOf]
  | cons km l =>
    simp only [counterOf, List.foldl_cons]
    constructor
    · intro h
      exact absurd h (hfold l (cincr [] km) (cincr_ne_nil [] km))
    · intro h
      exact absurd h (List.cons_ne_nil km l)

/-- A looked-up count of a key present in a positive-count counter is
    positive. -/
theorem cget_pos {c : KmerCounter} (hc : ∀ p ∈ c, 0 < p.2) {km : Kmer}
    (h : km ∈ ckeys c) : 0 < cget c km := by
  have hs : (alookup km c).isSome := (alookup_isSome_iff km c).mpr h
  rcases Option.isSome_iff_exists.mp hs with ⟨v, hv⟩
  have := hc (km, v) (alookup_mem hv)
  simpa [cget, hv] using this

/-- The common-k-mer list of `calculate_match_score`, as a finite set, is
    the intersection of the two key sets. -/
theorem common_list_toFinset (q r : KmerCounter) :
    ((ckeys q).dedup.filter fun km => decide (km ∈ (ckeys r).dedup)).toFinset =
      (ckeys q).toFinset ∩ (ckeys r).toFinset := by
  ext x
  simp [List.mem_filter, List.mem_dedup]

theorem common_list_nodup (q r : KmerCounter) :
    ((ckeys q).dedup.filter fun km => decide (km ∈ (ckeys r).dedup)).Nodup :=
  (List.nodup_dedup _).filter _

/-- `len(set(q) & set(r))` agrees with the intersection cardinality. -/
theorem common_list_length (q r : KmerCounter) :
    ((ckeys q).dedup.filter fun km => decide (km ∈ (ckeys r).dedup)).length =
      ((ckeys q).toFinset ∩ (ckeys r).toFinset).card := by
  rw [← common_list_toFinset, List.card_toFinset, (common_list_nodup q r).dedup]

/-- `len(set(q) | set(r))` agrees with the union cardinality. -/
theorem union_list_length (q r : KmerCounter) :
    ((ckeys q ++ ckeys r).dedup).length =
      ((ckeys q).toFinset ∪ (ckeys r).toFinset).card := by
  rw [← List.toFinset_append, List.card_toFinset]

/-- Summing over the common-k-mer list is summing over the key-set
    intersection. -/
theorem common_list_sum (q r : KmerCounter) (f : Kmer → ℚ) :
    ((((ckeys q).dedup.filter fun km => decide (km ∈ (ckeys r).dedup)).map f).sum) =
      ∑ km ∈ (ckeys q).toFinset ∩ (ckeys r).toFinset, f km := by
  rw [← common_list_toFinset, List.sum_toFinset f (common_list_nodup q r)]

theorem ckeys_toFinset_nonempty {c : KmerCounter} (h : c ≠ []) :
    (ckeys c).toFinset.Nonempty := by
  cases c with
  | nil => exact absurd rfl h
  | cons p l => exact ⟨p.1, by simp [ckeys]⟩

/-- The score of `calculate_match_score` when the key sets intersect:
    the 70/30 blend of the Jaccard and frequency-similarity components. -/
theorem match_score_eq_blend (q r : KmerCounter) (hq : q ≠ []) (hr : r ≠ [])
    (hint : ((ckeys q).toFinset ∩ (ckeys r).toFinset).Nonempty) :
    calculate_match_score q r =
      7 / 10 * ((((ckeys q).toFinset ∩ (ckeys r).toFinset).card : ℚ) /
          (((ckeys q).toFinset ∪ (ckeys r).toFinset).card : ℚ) * 100) +
      3 / 10 * ((∑ km ∈ (ckeys q).toFinset ∩ (ckeys r).toFinset,
            ((min (cget q km) (cget r km) : ℚ) / (max (cget q km) (cget r km) : ℚ))) /
          (((ckeys q).toFinset ∩ (ckeys r).toFinset).card : ℚ) * 100) := by
  have hqe : q.isEmpty = false := by simp [List.isEmpty_iff, hq]
  have hre : r.isEmpty = false := by simp [List.isEmpty_iff, hr]
  have hcl := common_list_length q r
  have hcs := common_list_sum q r
    (fun km => ((min (cget q km) (cget r km) : ℚ) / (max (cget q km) (cget r km) : ℚ)))
  have hune : (((ckeys q).toFinset ∪ (ckeys r).toFinset).card : ℚ) ≠ 0 := by
    have hpos : 0 < ((ckeys q).toFinset ∪ (ckeys r).toFinset).card :=
      Finset.card_pos.mpr ((ckeys_toFinset_nonempty hq).mono Finset.subset_union_left)
    exact_mod_cast hpos.ne.symm
  have hcne : ((ckeys q).toFinset ∩ (ckeys r).toFinset).card ≠ 0 :=
    (Finset.card_pos.mpr hint).ne.symm
  have hcomne : ¬ ((ckeys q).dedup.filter fun km => decide (km ∈ (ckeys r).dedup)).isEmpty = true := by
    rw [List.isEmpty_iff]
    intro hnil
    rw [hnil] at hcl
    exact hcne hcl.symm
  simp only [calculate_match_score, hqe, hre, Bool.or_self, Bool.false_eq_true, if_false,
    hcl, hcs, union_list_length, hcomne]
  rw [if_neg (by exact_mod_cast fun h => hune (by exact_mod_cast h))]
  ring

/-- The score of `calculate_match_score` when the key sets are disjoint:
    the Jaccard component alone. -/
theorem match_score_eq_jaccard (q r : KmerCounter) (hq : q ≠ []) (hr : r ≠ [])
    (hint : (ckeys q).toFinset ∩ (ckeys r).toFinset = ∅) :
    calculate_match_score q r =
      (((ckeys q).toFinset ∩ (ckeys r).toFinset).card : ℚ) /
        (((ckeys q).toFinset ∪ (ckeys r).toFinset).card : ℚ) * 100 := by
  have hqe : q.isEmpty = false := by simp [List.isEmpty_iff, hq]
  have hre : r.isEmpty = false := by simp [List.isEmpty_iff, hr]
  have hcl := common_list_length q r
  have hune : (((ckeys q).toFinset ∪ (ckeys r).toFinset).card : ℚ) ≠ 0 := by
    have hpos : 0 < ((ckeys q).toFinset ∪ (ckeys r).toFinset).card :=
      Finset.card_pos.mpr ((ckeys_toFinset_nonempty hq).mono Finset.subset_union_left)
    exact_mod_cast hpos.ne.symm
  have hcome : ((ckeys q).dedup.filter fun km => decide (km ∈ (ckeys r).dedup)).isEmpty = true := by
    rw [List.isEmpty_iff, ← List.length_eq_zero, hcl, hint]
    exact Finset.card_empty
  simp only [calculate_match_score, hqe, hre, Bool.or_self, Bool.false_eq_true, if_false,
    hcl, union_list_length, hcome, if_true]
  rw [if_neg (by exact_mod_cast fun h => hune (by exact_mod_cast h))]

/-- Claim C6: the confidence classifier maps `s ≥ 85` to high,
    `70 ≤ s < 85` to medium, `50 ≤ s < 70` to low and `s < 50` to very_low;
    in particular at the boundary inputs 85, 84.999, 70 and 49.999. -/
theorem C6_confidence_bands (s : ℚ) :
    (85 ≤ s → get_confidence_level s = "high") ∧
    (70 ≤ s ∧ s < 85 → get_confidence_level s = "medium") ∧
    (50 ≤ s ∧ s < 70 → get_confidence_level s = "low") ∧
    (s < 50 → get_confidence_level s = "very_low") ∧
    get_confidence_level 85 = "high" ∧
    get_confidence_level (84999 / 1000) = "medium" ∧
    get_confidence_level 70 = "medium" ∧
    get_confidence_level (49999 / 1000) = "very_low" := by
  unfold get_confidence_level
  refine ⟨fun h => by rw [if_pos h], fun h => ?_, fun h => ?_, fun h => ?_, ?_, ?_, ?_, ?_⟩
  · rw [if_neg (by linarith), if_pos h.1]
  · rw [if_neg (by linarith), if_neg (by linarith), if_pos h.1]
  · rw [if_neg (by linarith), if_neg (by linarith), if_neg (by linarith)]
  · norm_num
  · norm_num
  · norm_num
  · norm_num

/-- Claim C6 witness: the theorem applied at score 90. -/
theorem C6_confidence_bands_witness :
    (85 : ℚ) ≤ 90 ∧ get_confidence_level 90 = "high" :=
  ⟨by norm_num, (C6_confidence_bands 90).1 (by norm_num)⟩

/-- Claim C1: for non-empty frequency tables the match score is the 70/30
    blend of the Jaccard component and the frequency-similarity component
    when the key sets share at least one k-mer, and the Jaccard component
    alone when they share none. -/
theorem C1_match_score_formula (q r : KmerCounter) (hq : q ≠ []) (hr : r ≠ []) :
    (((ckeys q).toFinset ∩ (ckeys r).toFinset).Nonempty →
      calculate_match_score q r =
        7 / 10 * ((((ckeys q).toFinset ∩ (ckeys r).toFinset).card : ℚ) /
            (((ckeys q).toFinset ∪ (ckeys r).toFinset).card : ℚ) * 100) +
        3 / 10 * ((∑ km ∈ (ckeys q).toFinset ∩ (ckeys r).toFinset,
              ((min (cget q km) (cget r km) : ℚ) / (max (cget q km) (cget r km) : ℚ))) /
            (((ckeys q).toFinset ∩ (ckeys r).toFinset).card : ℚ) * 100)) ∧
    ((ckeys q).toFinset ∩ (ckeys r).toFinset = ∅ →
      calculate_match_score q r =
        (((ckeys q).toFinset ∩ (ckeys r).toFinset).card : ℚ) /
          (((ckeys q).toFinset ∪ (ckeys r).toFinset).card : ℚ) * 100) :=
  ⟨match_score_eq_blend q r hq hr, match_score_eq_jaccard q r hq hr⟩

/-- Claim C1 witness: the blend formula applied to the concrete tables
    `{A: 1}` and `{A: 2, C: 1}`. -/
theorem C1_match_score_formula_witness :
    (([(([ 'A' ] : Kmer), 1)] : KmerCounter) ≠ [] ∧
      ([(([ 'A' ] : Kmer), 2), (([ 'C' ] : Kmer), 1)] : KmerCounter) ≠ [] ∧
      ((ckeys [(([ 'A' ] : Kmer), 1)]).toFinset ∩
        (ckeys [(([ 'A' ] : Kmer), 2), (([ 'C' ] : Kmer), 1)]).toFinset).Nonempty) ∧
    calculate_match_score [(([ 'A' ] : Kmer), 1)] [(([ 'A' ] : Kmer), 2), (([ 'C' ] : Kmer), 1)] =
      7 / 10 * ((((ckeys [(([ 'A' ] : Kmer), 1)]).toFinset ∩
            (ckeys [(([ 'A' ] : Kmer), 2), (([ 'C' ] : Kmer), 1)]).toFinset).card : ℚ) /
          (((ckeys [(([ 'A' ] : Kmer), 1)]).toFinset ∪
            (ckeys [(([ 'A' ] : Kmer), 2), (([ 'C' ] : Kmer), 1)]).toFinset).card : ℚ) * 100) +
      3 / 10 * ((∑ km ∈ (ckeys [(([ 'A' ] : Kmer), 1)]).toFinset ∩
            (ckeys [(([ 'A' ] : Kmer), 2), (([ 'C' ] : Kmer), 1)]).toFinset,
            ((min (cget [(([ 'A' ] : Kmer), 1)] km)
                  (cget [(([ 'A' ] : Kmer), 2), (([ 'C' ] : Kmer), 1)] km) : ℚ) /
             (max (cget [(([ 'A' ] : Kmer), 1)] km)
                  (cget [(([ 'A' ] : Kmer), 2), (([ 'C' ] : Kmer), 1)] km) : ℚ))) /
          (((ckeys [(([ 'A' ] : Kmer), 1)]).toFinset ∩
            (ckeys [(([ 'A' ] : Kmer), 2), (([ 'C' ] : Kmer), 1)]).toFinset).card : ℚ) * 100) :=
  ⟨⟨by decide, by decide, ⟨([ 'A' ] : Kmer), by decide⟩⟩,
    (C1_match_score_formula _ _ (by decide) (by decide)).1 ⟨([ 'A' ] : Kmer), by decide⟩⟩

/-- `roundHalfEven` fixes integers. -/
theorem roundHalfEven_intCast (n : ℤ) : roundHalfEven (n : ℚ) = n := by
  unfold roundHalfEven
  rw [Int.floor_intCast]
  norm_num

/-- Python `round(x, 2)` fixes integers. -/
theorem pyRound2_intCast (n : ℤ) : pyRound2 (n : ℚ) = n := by
  unfold pyRound2
  rw [show ((n : ℚ) * 100) = ((n * 100 : ℤ) : ℚ) by push_cast; ring, roundHalfEven_intCast]
  push_cast
  field_simp

/-- A well-formed non-empty counter scores exactly 100 against itself. -/
theorem calculate_match_score_self {c : KmerCounter} (hne : c ≠ []) (hwf : CounterWF c) :
    calculate_match_score c c = 100 := by
  have hsub : (ckeys c).toFinset ∩ (ckeys c).toFinset = (ckeys c).toFinset :=
    Finset.inter_self _
  have hcard : 0 < (ckeys c).toFinset.card :=
    Finset.card_pos.mpr (ckeys_toFinset_nonempty hne)
  have hblend := match_score_eq_blend c c hne hne
    (by rw [hsub]; exact ckeys_toFinset_nonempty hne)
  rw [hsub, Finset.union_self] at hblend
  have hterm : ∀ km ∈ (ckeys c).toFinset,
      ((min (cget c km) (cget c km) : ℚ) / (max (cget c km) (cget c km) : ℚ)) = 1 := by
    intro km hkm
    have hpos : 0 < cget c km := cget_pos hwf.2 (List.mem_toFinset.mp hkm)
    have hzero : (cget c km : ℚ) ≠ 0 := by exact_mod_cast hpos.ne.symm
    simp [div_self hzero]
  rw [Finset.sum_congr rfl hterm, Finset.sum_const, nsmul_eq_mul, mul_one] at hblend
  have hc : ((ckeys c).toFinset.card : ℚ) ≠ 0 := by exact_mod_cast hcard.ne.symm
  rw [hblend, div_self hc]
  norm_num

/-- Claim C2 (amended): if the reference profile stored for species `sid`
    is exactly the k-mer profile of the query sequence (the sequence is the
    species' sole reference contribution, indexed once) and it is non-empty,
    then — whenever the score floor does not exceed 100 — the candidate list
    for that query contains an entry for `sid` whose stored matching score
    is exactly 100.0, the unrounded score also being exactly 100. -/
theorem C2_self_match (m : eDNAMatcher) (sid : String) (q : List Char) (rk : KmerCounter)
    (hdb : alookup sid m.reference_db = some rk)
    (hself : rk = counterOf (generate_kmers m.k q))
    (hne : rk ≠ []) (hms : m.min_score ≤ 100) :
    ∃ e ∈ candidates m (counterOf (generate_kmers m.k q)) q.length,
      e.species_id = sid ∧ e.matching_score = 100 ∧
      calculate_match_score (counterOf (generate_kmers m.k q)) rk = 100 := by
  have hwf : CounterWF rk := by
    rw [hself]
    exact counterOf_wf _
  have hscore : calculate_match_score (counterOf (generate_kmers m.k q)) rk = 100 := by
    rw [← hself]
    exact calculate_match_score_self hne hwf
  have hmk : mkEntry m (counterOf (generate_kmers m.k q)) q.length sid rk =
      some ⟨sid,
        ((alookup sid m.species_info).getD ⟨"Unknown", "Unknown", "Unknown"⟩).scientific_name,
        ((alookup sid m.species_info).getD ⟨"Unknown", "Unknown", "Unknown"⟩).common_name,
        ((alookup sid m.species_info).getD ⟨"Unknown", "Unknown", "Unknown"⟩).phylum,
        pyRound2 (calculate_match_score (counterOf (generate_kmers m.k q)) rk),
        get_confidence_level (calculate_match_score (counterOf (generate_kmers m.k q)) rk),
        q.length, (counterOf (generate_kmers m.k q)).length⟩ := by
    unfold mkEntry
    rw [if_pos (by rw [hscore]; exact hms)]
  refine ⟨_, List.mem_filterMap.mpr ⟨(sid, rk), alookup_mem hdb, hmk⟩, rfl, ?_, hscore⟩
  show pyRound2 (calculate_match_score (counterOf (generate_kmers m.k q)) rk) = 100
  rw [hscore]
  simpa using pyRound2_intCast 100

/-- Claim C2 witness: the amended theorem applied to a matcher whose only
    reference profile for SP1 is the profile of the query `ATGCG` itself. -/
theorem C2_self_match_witness :
    (alookup "SP1"
        (eDNAMatcher.mk 5 50 [("SP1", [(("ATGCG".data : Kmer), 1)])] []).reference_db =
          some [(("ATGCG".data : Kmer), 1)] ∧
      ([(("ATGCG".data : Kmer), 1)] : KmerCounter) =
        counterOf (generate_kmers (eDNAMatcher.mk 5 50 [("SP1", [(("ATGCG".data : Kmer), 1)])] []).k
          "ATGCG".data) ∧
      ([(("ATGCG".data : Kmer), 1)] : KmerCounter) ≠ [] ∧
      (eDNAMatcher.mk 5 50 [("SP1", [(("ATGCG".data : Kmer), 1)])] []).min_score ≤ 100) ∧
    ∃ e ∈ candidates (eDNAMatcher.mk 5 50 [("SP1", [(("ATGCG".data : Kmer), 1)])] [])
        (counterOf (generate_kmers (eDNAMatcher.mk 5 50 [("SP1", [(("ATGCG".data : Kmer), 1)])] []).k
          "ATGCG".data))
        "ATGCG".data.length,
      e.species_id = "SP1" ∧ e.matching_score = 100 ∧
      calculate_match_score
        (counterOf (generate_kmers (eDNAMatcher.mk 5 50 [("SP1", [(("ATGCG".data : Kmer), 1)])] []).k
          "ATGCG".data))
        [(("ATGCG".data : Kmer), 1)] = 100 :=
  ⟨⟨by decide, by decide, by decide, by norm_num⟩,
    C2_self_match (eDNAMatcher.mk 5 50 [("SP1", [(("ATGCG".data : Kmer), 1)])] []) "SP1"
      "ATGCG".data [(("ATGCG".data : Kmer), 1)] (by decide) (by decide) (by decide) (by norm_num)⟩

/-- Concrete score: query profile of `ATGCG` against the accumulated SP1
    profile containing the k-mers of both `ATGCG` and `CCCCC`. -/
theorem match_score_two_seq_eval :
    calculate_match_score [(("ATGCG".data : Kmer), 1)]
      [(("ATGCG".data : Kmer), 1), (("CCCCC".data : Kmer), 1)] = 65 := by
  have hblend := match_score_eq_blend [(("ATGCG".data : Kmer), 1)]
      [(("ATGCG".data : Kmer), 1), (("CCCCC".data : Kmer), 1)] (by decide) (by decide)
      ⟨("ATGCG".data : Kmer), by decide⟩
  rw [hblend]
  have hI : (ckeys [(("ATGCG".data : Kmer), 1)]).toFinset ∩
      (ckeys [(("ATGCG".data : Kmer), 1), (("CCCCC".data : Kmer), 1)]).toFinset =
      {("ATGCG".data : Kmer)} := by decide
  have hU : ((ckeys [(("ATGCG".data : Kmer), 1)]).toFinset ∪
      (ckeys [(("ATGCG".data : Kmer), 1), (("CCCCC".data : Kmer), 1)]).toFinset).card = 2 := by
    decide
  rw [hI, hU, Finset.sum_singleton, Finset.card_singleton]
  have h1 : cget [(("ATGCG".data : Kmer), 1)] ("ATGCG".data : Kmer) = 1 := by decide
  have h2 : cget [(("ATGCG".data : Kmer), 1), (("CCCCC".data : Kmer), 1)]
      ("ATGCG".data : Kmer) = 1 := by decide
  rw [h1, h2]
  norm_num

/-- Claim C2 counterexample: the reference sequence `ATGCG` was included in
    the build for SP1 (alongside a second sequence `CCCCC`), yields a valid
    k-mer, yet querying that exact sequence scores SP1 at 65.0, not 100.0. -/
theorem C2_counterexample :
    (match_sequence (build_reference_database (eDNAMatcher.init 5 50)
        [⟨"SP1", "ATGCG".data⟩, ⟨"SP1", "CCCCC".data⟩] []) "ATGCG".data 5).map
      (fun x => (x.species_id, x.matching_score)) = [("SP1", (65 : ℚ))] ∧
    (65 : ℚ) ≠ 100 := by
  constructor
  · have hb : build_reference_database (eDNAMatcher.init 5 50)
        [⟨"SP1", "ATGCG".data⟩, ⟨"SP1", "CCCCC".data⟩] [] =
        eDNAMatcher.mk 5 50
          [("SP1", [(("ATGCG".data : Kmer), 1), (("CCCCC".data : Kmer), 1)])] [] := rfl
    rw [hb]
    have hqk : counterOf (generate_kmers
        (eDNAMatcher.mk 5 50
          [("SP1", [(("ATGCG".data : Kmer), 1), (("CCCCC".data : Kmer), 1)])] []).k
        "ATGCG".data) = [(("ATGCG".data : Kmer), 1)] := by decide
    have hmk : mkEntry
        (eDNAMatcher.mk 5 50
          [("SP1", [(("ATGCG".data : Kmer), 1), (("CCCCC".data : Kmer), 1)])] [])
        [(("ATGCG".data : Kmer), 1)] "ATGCG".data.length "SP1"
        [(("ATGCG".data : Kmer), 1), (("CCCCC".data : Kmer), 1)] =
        some ⟨"SP1", "Unknown", "Unknown", "Unknown", 65, "low", 5, 1⟩ := by
      unfold mkEntry
      rw [match_score_two_seq_eval]
      rw [if_pos (by show (50 : ℚ) ≤ 65; norm_num)]
      have hr : pyRound2 65 = 65 := by simpa using pyRound2_intCast 65
      have hg : get_confidence_level 65 = "low" := by norm_num [get_confidence_level]
      simp [alookup, hr, hg]
    unfold match_sequence
    rw [hqk, if_neg (by decide)]
    unfold candidates
    simp only [List.filterMap_cons, List.filterMap_nil, hmk]
    rfl
  · norm_num

theorem mem_insertDesc {α : Type} (key : α → ℚ) (a x : α) (l : List α) :
    x ∈ insertDesc key a l ↔ x = a ∨ x ∈ l := by
  induction l with
  | nil => simp [insertDesc]
  | cons b l ih =>
    by_cases h : key a < key b
    · rw [insertDesc, if_pos h]
      simp only [List.mem_cons, ih]
      tauto
    · rw [insertDesc, if_neg h]
      simp only [List.mem_cons]

theorem mem_sortByDesc {α : Type} (key : α → ℚ) (l : List α) (x : α) :
    x ∈ sortByDesc key l ↔ x ∈ l := by
  induction l with
  | nil => simp [sortByDesc]
  | cons a l ih =>
    rw [sortByDesc, mem_insertDesc]
    simp [ih]

theorem length_insertDesc {α : Type} (key : α → ℚ) (a : α) (l : List α) :
    (insertDesc key a l).length = l.length + 1 := by
  induction l with
  | nil => simp [insertDesc]
  | cons b l ih =>
    by_cases h : key a < key b
    · simp [insertDesc, h, ih]
    · simp [insertDesc, h]

theorem length_sortByDesc {α : Type} (key : α → ℚ) (l : List α) :
    (sortByDesc key l).length = l.length := by
  induction l with
  | nil => rfl
  | cons a l ih =>
    rw [sortByDesc, length_insertDesc, ih]
    rfl

/-- Inserting into a list sorted by non-increasing key keeps it sorted. -/
theorem sorted_insertDesc {α : Type} (key : α → ℚ) (a : α) {l : List α}
    (h : l.Sorted fun x y => key y ≤ key x) :
    (insertDesc key a l).Sorted fun x y => key y ≤ key x := by
  induction l with
  | nil => simp [insertDesc]
  | cons b l ih =>
    rcases List.sorted_cons.mp h with ⟨hb, hl⟩
    by_cases hab : key a < key b
    · rw [insertDesc, if_pos hab]
      refine List.sorted_cons.mpr ⟨?_, ih hl⟩
      intro x hx
      rcases (mem_insertDesc key a x l).mp hx with rfl | hx
      · exact le_of_lt hab
      · exact hb x hx
    · rw [insertDesc, if_neg hab]
      refine List.sorted_cons.mpr ⟨?_, h⟩
      intro x hx
      rcases List.mem_cons.mp hx with rfl | hx
      · exact not_lt.mp hab
      · exact le_trans (hb x hx) (not_lt.mp hab)

/-- The stable descending sort really is sorted by non-increasing key. -/
theorem sorted_sortByDesc {α : Type} (key : α → ℚ) (l : List α) :
    (sortByDesc key l).Sorted fun x y => key y ≤ key x := by
  induction l with
  | nil => simp [sortByDesc]
  | cons a l ih => exact sorted_insertDesc key a ih

/-- Claim C4: for positive `top_n` the returned list has length at most
    `top_n` and is in non-increasing order of the `matching_score` field. -/
theorem C4_topn_bound_and_sorted (m : eDNAMatcher) (q : List Char) (n : Int) (hn : 0 < n) :
    ((match_sequence m q n).length : Int) ≤ n ∧
    (match_sequence m q n).Sorted (fun a b => b.matching_score ≤ a.matching_score) := by
  unfold match_sequence
  by_cases hq : (counterOf (generate_kmers m.k q)).isEmpty
  · rw [if_pos hq]
    exact ⟨by simpa using hn.le, by simp⟩
  · rw [if_neg hq]
    unfold pySliceTo
    rw [if_neg (by omega)]
    constructor
    · have hlen : (List.take n.toNat (sortByDesc (fun x => x.matching_score)
          (candidates m (counterOf (generate_kmers m.k q)) q.length))).length ≤ n.toNat := by
        simp [List.length_take]
      calc ((List.take n.toNat (sortByDesc (fun x => x.matching_score)
            (candidates m (counterOf (generate_kmers m.k q)) q.length))).length : Int)
          ≤ (n.toNat : Int) := by exact_mod_cast hlen
        _ = n := Int.toNat_of_nonneg hn.le
    · exact List.Pairwise.sublist (List.take_sublist _ _)
        (sorted_sortByDesc (fun x : ScoredMatch => x.matching_score)
          (candidates m (counterOf (generate_kmers m.k q)) q.length))

/-- Claim C4 witness: the theorem applied to an empty matcher, the query
    `AAAAA` and `top_n = 5`. -/
theorem C4_topn_bound_and_sorted_witness :
    (0 : Int) < 5 ∧
    (((match_sequence (eDNAMatcher.init 5 50) "AAAAA".data 5).length : Int) ≤ 5 ∧
      (match_sequence (eDNAMatcher.init 5 50) "AAAAA".data 5).Sorted
        (fun a b => b.matching_score ≤ a.matching_score)) :=
  ⟨by norm_num, C4_topn_bound_and_sorted (eDNAMatcher.init 5 50) "AAAAA".data 5 (by norm_num)⟩

/-- Every entry of a `match_sequence` result arises from a reference
    profile whose unrounded score cleared `min_score`; the stored score is
    that unrounded score rounded to two decimals, and the confidence label
    was computed on the unrounded score. -/
theorem mem_match_sequence_spec {m : eDNAMatcher} {q : List Char} {n : Int} {e : ScoredMatch}
    (he : e ∈ match_sequence m q n) :
    ∃ rk, (e.species_id, rk) ∈ m.reference_db ∧
      m.min_score ≤ calculate_match_score (counterOf (generate_kmers m.k q)) rk ∧
      e.matching_score = pyRound2 (calculate_match_score (counterOf (generate_kmers m.k q)) rk) ∧
      e.confidence_level =
        get_confidence_level (calculate_match_score (counterOf (generate_kmers m.k q)) rk) := by
  unfold match_sequence at he
  by_cases hq : (counterOf (generate_kmers m.k q)).isEmpty
  · rw [if_pos hq] at he
    simp at he
  · rw [if_neg hq] at he
    have h1 : e ∈ sortByDesc (fun x => x.matching_score)
        (candidates m (counterOf (generate_kmers m.k q)) q.length) := by
      unfold pySliceTo at he
      by_cases hn : n < 0
      · rw [if_pos hn] at he
        exact List.take_subset _ _ he
      · rw [if_neg hn] at he
        exact List.take_subset _ _ he
    have h2 : e ∈ candidates m (counterOf (generate_kmers m.k q)) q.length :=
      (mem_sortByDesc _ _ e).mp h1
    rcases List.mem_filterMap.mp h2 with ⟨p, hp, hmk⟩
    unfold mkEntry at hmk
    by_cases hge : m.min_score ≤ calculate_match_score (counterOf (generate_kmers m.k q)) p.2
    · rw [if_pos hge] at hmk
      have hinj := Option.some.inj hmk
      refine ⟨p.2, ?_, hge, ?_, ?_⟩
      · rw [← hinj]
        simpa using hp
      · rw [← hinj]
      · rw [← hinj]
    · rw [if_neg hge] at hmk
      cases hmk

/-- `mkEntry` produces an entry exactly when the unrounded score clears the
    floor. -/
theorem mkEntry_isSome_iff (m : eDNAMatcher) (qk : KmerCounter) (qlen : Nat)
    (sid : String) (rk : KmerCounter) :
    (mkEntry m qk qlen sid rk).isSome ↔ m.min_score ≤ calculate_match_score qk rk := by
  unfold mkEntry
  by_cases hge : m.min_score ≤ calculate_match_score qk rk
  · rw [if_pos hge]
    simpa using hge
  · rw [if_neg hge]
    simpa using hge

/-- Entries produced by `mkEntry` from an indexed species are in the
    candidate list. -/
theorem mkEntry_mem_candidates {m : eDNAMatcher} {qk : KmerCounter} {qlen : Nat}
    {sid : String} {rk : KmerCounter} {e : ScoredMatch}
    (hdb : (sid, rk) ∈ m.reference_db) (hmk : mkEntry m qk qlen sid rk = some e) :
    e ∈ candidates m qk qlen :=
  List.mem_filterMap.mpr ⟨(sid, rk), hdb, hmk⟩

/-- Concrete score of the query profile of `A` against `acgProfile`:
    `0.7 * (1/3 * 100) + 0.3 * 100 = 160/3`. -/
theorem match_score_one_third_eval :
    calculate_match_score [(("A".data : Kmer), 1)] acgProfile = 160 / 3 := by
  have hblend := match_score_eq_blend [(("A".data : Kmer), 1)] acgProfile
    (by decide) (by decide) ⟨("A".data : Kmer), by decide⟩
  rw [hblend]
  have hI : (ckeys [(("A".data : Kmer), 1)]).toFinset ∩ (ckeys acgProfile).toFinset =
      {("A".data : Kmer)} := by decide
  have hU : ((ckeys [(("A".data : Kmer), 1)]).toFinset ∪ (ckeys acgProfile).toFinset).card = 3 := by
    decide
  rw [hI, hU, Finset.sum_singleton, Finset.card_singleton]
  have h1 : cget [(("A".data : Kmer), 1)] ("A".data : Kmer) = 1 := by decide
  have h2 : cget acgProfile ("A".data : Kmer) = 1 := by decide
  rw [h1, h2]
  norm_num

/-- `round(160/3, 2) = 53.33`. -/
theorem pyRound2_one_third : pyRound2 (160 / 3) = 5333 / 100 := by
  have hfl : ⌊(160 / 3 : ℚ) * 100⌋ = 5333 := by
    rw [show (160 / 3 : ℚ) * 100 = ((16000 : ℤ) : ℚ) / ((3 : ℕ) : ℚ) by norm_num,
      Rat.floor_intCast_div_natCast]
    decide
  simp only [pyRound2, roundHalfEven, hfl]
  rw [if_pos (by norm_num)]
  push_cast
  norm_num

/-- The confidence label computed on the unrounded score `160/3`. -/
theorem conf_one_third : get_confidence_level (160 / 3) = "low" := by
  unfold get_confidence_level
  rw [if_neg (by norm_num), if_neg (by norm_num), if_pos (by norm_num)]

/-- Full evaluation of a `match_sequence` call on `acgMatcher`: whenever the
    floor is at most `160/3`, the query `A` returns exactly one entry whose
    stored score is the rounded `53.33`. -/
theorem match_sequence_eval_acg (ms : ℚ) (hms : ms ≤ 160 / 3) :
    match_sequence (acgMatcher ms) "A".data 5 =
      [⟨"SP", "Unknown", "Unknown", "Unknown", 5333 / 100, "low", 1, 1⟩] := by
  have hqk : counterOf (generate_kmers 1 "A".data) = [(("A".data : Kmer), 1)] := by decide
  have hmk : mkEntry (acgMatcher ms) [(("A".data : Kmer), 1)] "A".data.length "SP" acgProfile =
      some ⟨"SP", "Unknown", "Unknown", "Unknown", 5333 / 100, "low", 1, 1⟩ := by
    unfold mkEntry
    rw [match_score_one_third_eval]
    rw [if_pos (show (acgMatcher ms).min_score ≤ (160 / 3 : ℚ) from hms)]
    rw [pyRound2_one_third, conf_one_third]
    rfl
  unfold match_sequence
  rw [show (acgMatcher ms).k = 1 from rfl, hqk, if_neg (by decide)]
  unfold candidates
  show pySliceTo (sortByDesc (fun x => x.matching_score)
    (List.filterMap (fun p => mkEntry (acgMatcher ms) [(("A".data : Kmer), 1)] "A".data.length p.1 p.2)
      [("SP", acgProfile)])) 5 = _
  simp only [List.filterMap_cons, List.filterMap_nil, hmk]
  rfl

/-- Claim C3 counterexample: with `min_score = 160/3` the species scores
    exactly `160/3 ≥ min_score` and is returned, but the stored
    `matching_score` of the returned entry is the rounded `53.33`, which is
    strictly below `min_score`. -/
theorem C3_counterexample :
    (match_sequence (acgMatcher (160 / 3)) "A".data 5).map
      (fun x => (x.species_id, x.matching_score)) = [("SP", (5333 / 100 : ℚ))] ∧
    (5333 / 100 : ℚ) < (acgMatcher (160 / 3)).min_score := by
  constructor
  · rw [match_sequence_eval_acg (160 / 3) le_rfl]
    rfl
  · show (5333 / 100 : ℚ) < 160 / 3
    norm_num

/-- Claim C3 (amended): every returned ScoredMatch stores `round2(s)` for
    some unrounded score `s ≥ min_score` (the rounded value itself can drop
    below `min_score`), and an entry is produced for a species profile
    exactly when its unrounded final score is `≥ min_score` (inclusive
    floor); entries produced from indexed species are in the candidate
    list. -/
theorem C3_score_floor (m : eDNAMatcher) (q : List Char) (n : Int) :
    (∀ e ∈ match_sequence m q n, ∃ s : ℚ,
      m.min_score ≤ s ∧ e.matching_score = pyRound2 s) ∧
    (∀ sid rk, (mkEntry m (counterOf (generate_kmers m.k q)) q.length sid rk).isSome ↔
      m.min_score ≤ calculate_match_score (counterOf (generate_kmers m.k q)) rk) ∧
    (∀ sid rk e, (sid, rk) ∈ m.reference_db →
      mkEntry m (counterOf (generate_kmers m.k q)) q.length sid rk = some e →
      e ∈ candidates m (counterOf (generate_kmers m.k q)) q.length) := by
  refine ⟨?_, fun sid rk => mkEntry_isSome_iff m _ _ sid rk,
    fun sid rk e hdb hmk => mkEntry_mem_candidates hdb hmk⟩
  intro e he
  rcases mem_match_sequence_spec he with ⟨rk, _, hge, hsc, _⟩
  exact ⟨_, hge, hsc⟩

/-- Claim C3 witness: the amended statement instantiated on the concrete
    run with `min_score = 50`. -/
theorem C3_score_floor_witness :
    ((⟨"SP", "Unknown", "Unknown", "Unknown", 5333 / 100, "low", 1, 1⟩ : ScoredMatch) ∈
      match_sequence (acgMatcher 50) "A".data 5) ∧
    ∃ s : ℚ, (acgMatcher 50).min_score ≤ s ∧ (5333 / 100 : ℚ) = pyRound2 s := by
  have hmem : (⟨"SP", "Unknown", "Unknown", "Unknown", 5333 / 100, "low", 1, 1⟩ : ScoredMatch) ∈
      match_sequence (acgMatcher 50) "A".data 5 := by
    rw [match_sequence_eval_acg 50 (by norm_num)]
    exact List.mem_singleton.mpr rfl
  exact ⟨hmem, (C3_score_floor (acgMatcher 50) "A".data 5).1 _ hmem⟩

/-- Claim C10: each returned entry stores the final score rounded to two
    decimals while both the `min_score` inclusion test and the confidence
    classification were applied to the unrounded score; and rounding really
    can change the value (at score `160/3` the stored value differs from
    the compared and classified one). -/
theorem C10_rounding_and_classification (m : eDNAMatcher) (q : List Char) (n : Int) :
    (∀ e ∈ match_sequence m q n,
      ∃ rk, (e.species_id, rk) ∈ m.reference_db ∧
        m.min_score ≤ calculate_match_score (counterOf (generate_kmers m.k q)) rk ∧
        e.matching_score = pyRound2 (calculate_match_score (counterOf (generate_kmers m.k q)) rk) ∧
        e.confidence_level =
          get_confidence_level (calculate_match_score (counterOf (generate_kmers m.k q)) rk)) ∧
    pyRound2 (160 / 3) ≠ (160 / 3 : ℚ) :=
  ⟨fun _ he => mem_match_sequence_spec he, by rw [pyRound2_one_third]; norm_num⟩

/-- Claim C10 witness: the theorem instantiated on the concrete run with
    `min_score = 50`, where the stored score `53.33` differs from the
    unrounded `160/3` that was compared and classified. -/
theorem C10_rounding_and_classification_witness :
    ((⟨"SP", "Unknown", "Unknown", "Unknown", 5333 / 100, "low", 1, 1⟩ : ScoredMatch) ∈
      match_sequence (acgMatcher 50) "A".data 5) ∧
    ∃ rk, (("SP" : String), rk) ∈ (acgMatcher 50).reference_db ∧
      (acgMatcher 50).min_score ≤
        calculate_match_score (counterOf (generate_kmers (acgMatcher 50).k "A".data)) rk ∧
      (5333 / 100 : ℚ) =
        pyRound2 (calculate_match_score (counterOf (generate_kmers (acgMatcher 50).k "A".data)) rk) ∧
      ("low" : String) =
        get_confidence_level
          (calculate_match_score (counterOf (generate_kmers (acgMatcher 50).k "A".data)) rk) := by
  have hmem : (⟨"SP", "Unknown", "Unknown", "Unknown", 5333 / 100, "low", 1, 1⟩ : ScoredMatch) ∈
      match_sequence (acgMatcher 50) "A".data 5 := by
    rw [match_sequence_eval_acg 50 (by norm_num)]
    exact List.mem_singleton.mpr rfl
  exact ⟨hmem, (C10_rounding_and_classification (acgMatcher 50) "A".data 5).1 _ hmem⟩

theorem build_nil (m : eDNAMatcher) (tax : List TaxRecord) :
    build_reference_database m [] tax = m :=
  rfl

theorem build_cons (m : eDNAMatcher) (sr : SeqRecord) (rest : List SeqRecord)
    (tax : List TaxRecord) :
    build_reference_database m (sr :: rest) tax =
      build_reference_database (buildStep tax m sr) rest tax :=
  rfl

theorem buildStep_reference_db (tax : List TaxRecord) (m : eDNAMatcher) (sr : SeqRecord) :
    (buildStep tax m sr).reference_db =
      aupdate sr.matched_species_id
        (fun c => addKmers c (generate_kmers m.k sr.sequence))
        (if (alookup sr.matched_species_id m.reference_db).isSome then m.reference_db
         else m.reference_db ++ [(sr.matched_species_id, [])]) :=
  rfl

theorem buildStep_species_info (tax : List TaxRecord) (m : eDNAMatcher) (sr : SeqRecord) :
    (buildStep tax m sr).species_info =
      if (alookup sr.matched_species_id m.species_info).isSome then m.species_info
      else
        match find_one_taxonomy tax sr.matched_species_id with
        | some r =>
            m.species_info ++
              [(sr.matched_species_id,
                ⟨r.species.getD "Unknown", r.common_name.getD "Unknown", r.phylum.getD "Unknown"⟩)]
        | none => m.species_info :=
  rfl

/-- After one build step the reference index covers the old keys plus the
    processed record's species id. -/
theorem buildStep_refdb_isSome (tax : List TaxRecord) (m : eDNAMatcher) (sr : SeqRecord)
    (sid : String) :
    (alookup sid (buildStep tax m sr).reference_db).isSome ↔
      (alookup sid m.reference_db).isSome ∨ sid = sr.matched_species_id := by
  rw [buildStep_reference_db, alookup_isSome_iff, aupdate_keys]
  by_cases hin : (alookup sr.matched_species_id m.reference_db).isSome
  · rw [if_pos hin]
    rw [← alookup_isSome_iff]
    constructor
    · exact Or.inl
    · rintro (h | rfl)
      · exact h
      · exact hin
  · rw [if_neg hin, List.map_append]
    simp only [List.mem_append, List.map_cons, List.map_nil, List.mem_singleton]
    rw [← alookup_isSome_iff]

/-- After one build step the species-metadata table covers the old keys,
    plus the processed record's species id exactly when the taxonomy lookup
    for it succeeds. -/
theorem buildStep_si_isSome (tax : List TaxRecord) (m : eDNAMatcher) (sr : SeqRecord)
    (sid : String) :
    (alookup sid (buildStep tax m sr).species_info).isSome ↔
      (alookup sid m.species_info).isSome ∨
        (sid = sr.matched_species_id ∧ (find_one_taxonomy tax sid).isSome) := by
  rw [buildStep_species_info]
  by_cases hin : (alookup sr.matched_species_id m.species_info).isSome
  · rw [if_pos hin]
    constructor
    · exact Or.inl
    · rintro (h | ⟨rfl, _⟩)
      · exact h
      · exact hin
  · rw [if_neg hin]
    cases hfind : find_one_taxonomy tax sr.matched_species_id with
    | none =>
      constructor
      · exact Or.inl
      · rintro (h | ⟨rfl, hs⟩)
        · exact h
        · rw [hfind] at hs
          cases hs
    | some r =>
      rw [alookup_append]
      cases halk : alookup sid m.species_info with
      | some v => simp [halk]
      | none =>
        simp only [halk, Option.isSome_none, false_or]
        by_cases hs : sr.matched_species_id = sid
        · subst hs
          simp [alookup, hfind]
        · have hs2 : ¬ sid = sr.matched_species_id := fun h => hs h.symm
          simp [alookup, hs, hs2]

/-- Reference-index coverage of a whole build, as a function of the start
    state and the corpus. -/
theorem build_refdb_isSome (tax : List TaxRecord) (seqs : List SeqRecord) :
    ∀ (m : eDNAMatcher) (sid : String),
      (alookup sid (build_reference_database m seqs tax).reference_db).isSome ↔
        (alookup sid m.reference_db).isSome ∨
          sid ∈ seqs.map SeqRecord.matched_species_id := by
  induction seqs with
  | nil =>
    intro m sid
    simp [build_nil]
  | cons sr rest ih =>
    intro m sid
    rw [build_cons, ih, buildStep_refdb_isSome]
    simp only [List.map_cons, List.mem_cons]
    tauto

/-- Species-metadata coverage of a whole build, as a function of the start
    state and the corpus. -/
theorem build_si_isSome (tax : List TaxRecord) (seqs : List SeqRecord) :
    ∀ (m : eDNAMatcher) (sid : String),
      (alookup sid (build_reference_database m seqs tax).species_info).isSome ↔
        (alookup sid m.species_info).isSome ∨
          (sid ∈ seqs.map SeqRecord.matched_species_id ∧
            (find_one_taxonomy tax sid).isSome) := by
  induction seqs with
  | nil =>
    intro m sid
    simp [build_nil]
  | cons sr rest ih =>
    intro m sid
    rw [build_cons, ih, buildStep_si_isSome]
    simp only [List.map_cons, List.mem_cons]
    tauto

/-- A taxonomy record is found exactly when one with the species id is in
    the collection. -/
theorem find_one_taxonomy_isSome (tax : List TaxRecord) (sid : String) :
    (find_one_taxonomy tax sid).isSome ↔ ∃ r ∈ tax, r.species_id = sid := by
  simp [find_one_taxonomy, List.find?_isSome]

/-- Claim C5 counterexample: building from a corpus containing species SP1
    with an empty taxonomy collection indexes SP1 in the reference index
    but creates no species-metadata entry at all for it (the "Unknown"
    defaulting happens only at match time, not at build time). -/
theorem C5_counterexample :
    "SP1" ∈ ([⟨"SP1", "AT".data⟩] : List SeqRecord).map SeqRecord.matched_species_id ∧
    (alookup "SP1" (build_reference_database (eDNAMatcher.init 2 50)
        [⟨"SP1", "AT".data⟩] []).reference_db).isSome = true ∧
    alookup "SP1" (build_reference_database (eDNAMatcher.init 2 50)
        [⟨"SP1", "AT".data⟩] []).species_info = none := by
  refine ⟨by decide, by decide, by decide⟩

/-- Claim C5 (amended): after a build from scratch, every species id in the
    sequence corpus has a reference-index entry (possibly with an empty
    frequency table); it has a species-metadata entry exactly when the
    metadata corpus holds a record with that species id (when it does not,
    no entry is created at build time — the "Unknown" defaults are applied
    at match time instead). -/
theorem C5_build_coverage (k : Int) (ms : ℚ) (seqs : List SeqRecord) (tax : List TaxRecord)
    (sid : String) (hsid : sid ∈ seqs.map SeqRecord.matched_species_id) :
    (alookup sid (build_reference_database (eDNAMatcher.init k ms) seqs tax).reference_db).isSome ∧
    ((alookup sid (build_reference_database (eDNAMatcher.init k ms) seqs tax).species_info).isSome ↔
      ∃ r ∈ tax, r.species_id = sid) := by
  constructor
  · rw [build_refdb_isSome]
    exact Or.inr hsid
  · rw [build_si_isSome, ← find_one_taxonomy_isSome]
    simp [eDNAMatcher.init, alookup, hsid]

/-- Claim C5 witness: the amended statement instantiated on a one-record
    corpus whose species has a taxonomy record. -/
theorem C5_build_coverage_witness :
    ("SP1" ∈ ([⟨"SP1", "AT".data⟩] : List SeqRecord).map SeqRecord.matched_species_id) ∧
    ((alookup "SP1" (build_reference_database (eDNAMatcher.init 2 50)
        [⟨"SP1", "AT".data⟩] [⟨"SP1", some "Thunnus", none, none⟩]).reference_db).isSome ∧
      ((alookup "SP1" (build_reference_database (eDNAMatcher.init 2 50)
          [⟨"SP1", "AT".data⟩] [⟨"SP1", some "Thunnus", none, none⟩]).species_info).isSome ↔
        ∃ r ∈ ([⟨"SP1", some "Thunnus", none, none⟩] : List TaxRecord), r.species_id = "SP1")) :=
  ⟨by decide,
    C5_build_coverage 2 50 [⟨"SP1", "AT".data⟩] [⟨"SP1", some "Thunnus", none, none⟩] "SP1"
      (by decide)⟩

/-- Every k-mer returned by `generate_kmers` passes the valid-base test. -/
theorem generate_kmers_valid (k : Int) (s : List Char) :
    ∀ km ∈ generate_kmers k s, km.all validBase = true := by
  intro km hkm
  rcases List.mem_filterMap.mp hkm with ⟨i, _, hi⟩
  dsimp only at hi
  split at hi
  · cases hi
    assumption
  · cases hi

/-- The filtering loop of `generate_kmers` is a `filter` of the raw
    windows. -/
theorem filterMap_if_eq_filter_map {α β : Type} (p : β → Bool) (f : α → β) (l : List α) :
    (l.filterMap fun a => if p (f a) then some (f a) else none) = (l.map f).filter p := by
  induction l with
  | nil => rfl
  | cons a l ih =>
    by_cases h : p (f a)
    · simp [List.filterMap_cons, List.filter_cons, h, ih]
    · simp [List.filterMap_cons, List.filter_cons, h, ih]

/-- `generate_kmers` keeps exactly the all-valid windows, in order. -/
theorem generate_kmers_eq_filter (k : Int) (s : List Char) :
    generate_kmers k s = (kmerWindows k s).filter (fun km => km.all validBase) := by
  unfold generate_kmers kmerWindows
  exact filterMap_if_eq_filter_map (fun km => km.all validBase)
    (fun i => pySliceStop (pyNormalize s) i ((i : Int) + k)) _

/-- A window with an invalid character is dropped entirely: it contributes
    no occurrence to the generated k-mer list. -/
theorem generate_kmers_count (k : Int) (s : List Char) (km : List Char) :
    (generate_kmers k s).count km =
      if km.all validBase = true then (kmerWindows k s).count km else 0 := by
  rw [generate_kmers_eq_filter]
  by_cases h : km.all validBase = true
  · rw [if_pos h]
    exact List.count_filter h
  · rw [if_neg h, List.count_eq_zero]
    intro hmem
    exact h (List.mem_filter.mp hmem).2

/-- Keys accumulated by `addKmers` come from the original counter or the
    added k-mer list. -/
theorem ckeys_addKmers_subset (l : List Kmer) :
    ∀ (c : KmerCounter) (km : Kmer), km ∈ ckeys (addKmers c l) → km ∈ ckeys c ∨ km ∈ l := by
  induction l with
  | nil =>
    intro c km h
    exact Or.inl h
  | cons x xs ih =>
    intro c km h
    rcases ih (cincr c x) km h with h2 | h2
    · rw [ckeys_cincr] at h2
      by_cases hx : x ∈ ckeys c
      · rw [if_pos hx] at h2
        exact Or.inl h2
      · rw [if_neg hx] at h2
        rcases List.mem_append.mp h2 with h3 | h3
        · exact Or.inl h3
        · right
          simp only [List.mem_singleton] at h3
          simp [h3]
    · exact Or.inr (List.mem_cons_of_mem _ h2)

/-- All keys of a counter built from a list of valid k-mers are valid. -/
theorem counterOf_keys_valid {l : List Kmer} (hl : ∀ km ∈ l, km.all validBase = true) :
    ∀ km ∈ ckeys (counterOf l), km.all validBase = true := by
  intro km hkm
  rcases ckeys_addKmers_subset l [] km hkm with h | h
  · simp [ckeys] at h
  · exact hl km h

/-- One build step preserves validity of every key of every stored
    profile. -/
theorem buildStep_refdb_valid (tax : List TaxRecord) (m : eDNAMatcher) (sr : SeqRecord)
    (hm : ∀ p ∈ m.reference_db, ∀ km ∈ ckeys p.2, km.all validBase = true) :
    ∀ p ∈ (buildStep tax m sr).reference_db, ∀ km ∈ ckeys p.2, km.all validBase = true := by
  have hdb0 : ∀ p ∈ (if (alookup sr.matched_species_id m.reference_db).isSome
      then m.reference_db else m.reference_db ++ [(sr.matched_species_id, [])]),
      ∀ km ∈ ckeys p.2, km.all validBase = true := by
    intro p hp km hkm
    split at hp
    · exact hm p hp km hkm
    · rcases List.mem_append.mp hp with h | h
      · exact hm p h km hkm
      · simp only [List.mem_singleton] at h
        rw [h] at hkm
        simp [ckeys] at hkm
  intro p hp km hkm
  rw [buildStep_reference_db] at hp
  rcases mem_aupdate hp with hp2 | ⟨v, hv, hpe⟩
  · exact hdb0 p hp2 km hkm
  · rw [hpe] at hkm
    rcases ckeys_addKmers_subset _ v km hkm with h | h
    · exact hdb0 (p.1, v) hv km h
    · exact generate_kmers_valid m.k sr.sequence km h

/-- Validity of all stored profile keys is an invariant of the whole
    build. -/
theorem build_refdb_valid (tax : List TaxRecord) (seqs : List SeqRecord) :
    ∀ (m : eDNAMatcher),
      (∀ p ∈ m.reference_db, ∀ km ∈ ckeys p.2, km.all validBase = true) →
      ∀ p ∈ (build_reference_database m seqs tax).reference_db,
        ∀ km ∈ ckeys p.2, km.all validBase = true := by
  induction seqs with
  | nil =>
    intro m hm
    simpa [build_nil] using hm
  | cons sr rest ih =>
    intro m hm
    rw [build_cons]
    exact ih (buildStep tax m sr) (buildStep_refdb_valid tax m sr hm)

/-- Claim C7: for `k ≥ 1`, every k-mer ever stored consists only of A, T,
    G, C — every generated k-mer passes the valid-base filter, a window
    failing it is dropped entirely (contributing no count), every key of
    every profile in a built reference index is valid, and so is every key
    of the query k-mer table formed in a match call. -/
theorem C7_kmer_alphabet_purity (k : Int) (_hk : 1 ≤ k) :
    (∀ (s : List Char), ∀ km ∈ generate_kmers k s, km.all validBase = true) ∧
    (∀ (s km : List Char), (generate_kmers k s).count km =
      if km.all validBase = true then (kmerWindows k s).count km else 0) ∧
    (∀ (ms : ℚ) (seqs : List SeqRecord) (tax : List TaxRecord),
      ∀ p ∈ (build_reference_database (eDNAMatcher.init k ms) seqs tax).reference_db,
        ∀ km ∈ ckeys p.2, km.all validBase = true) ∧
    (∀ (s : List Char), ∀ km ∈ ckeys (counterOf (generate_kmers k s)),
      km.all validBase = true) :=
  ⟨fun s => generate_kmers_valid k s,
   fun s km => generate_kmers_count k s km,
   fun ms seqs tax => build_refdb_valid tax seqs (eDNAMatcher.init k ms) (by simp [eDNAMatcher.init]),
   fun s => counterOf_keys_valid (generate_kmers_valid k s)⟩

/-- Claim C7 witness: instantiated at `k = 2` on a sequence containing an
    `N`: the contaminated windows are dropped. -/
theorem C7_kmer_alphabet_purity_witness :
    (1 : Int) ≤ 2 ∧
    (∀ km ∈ generate_kmers 2 "ANT".data, km.all validBase = true) ∧
    (generate_kmers 2 "ANT".data).count ("AN".data : List Char) =
      (if ("AN".data : List Char).all validBase = true
        then (kmerWindows 2 "ANT".data).count ("AN".data : List Char) else 0) :=
  ⟨by norm_num, (C7_kmer_alphabet_purity 2 (by norm_num)).1 "ANT".data,
    (C7_kmer_alphabet_purity 2 (by norm_num)).2.1 "ANT".data ("AN".data : List Char)⟩

theorem char_toNat_ofNat_small {n : ℕ} (h : n < 55296) : (Char.ofNat n).toNat = n := by
  simp only [Char.ofNat, Nat.isValidChar, UInt32.isValidChar]
  rw [dif_pos (Or.inl h)]
  simp [Char.ofNatAux, Char.toNat, UInt32.toNat, BitVec.toNat_ofNatLt]

theorem char_eq_of_toNat {c d : Char} (h : c.toNat = d.toNat) : c = d :=
  Char.eq_of_val_eq (UInt32.eq_of_toBitVec_eq (BitVec.eq_of_toNat_eq h))

/-- Uppercasing after lowercasing is plain uppercasing (ASCII model of the
    Python string functions). -/
theorem pyUpperChar_pyLowerChar (c : Char) : pyUpperChar (pyLowerChar c) = pyUpperChar c := by
  unfold pyLowerChar
  by_cases h : 65 ≤ c.toNat ∧ c.toNat ≤ 90
  · rw [if_pos h]
    have htn : (Char.ofNat (c.toNat + 32)).toNat = c.toNat + 32 :=
      char_toNat_ofNat_small (by omega)
    unfold pyUpperChar
    rw [htn]
    rw [if_pos (by omega), if_neg (by omega)]
    rw [Nat.add_sub_cancel]
    exact char_eq_of_toNat (char_toNat_ofNat_small (by omega))
  · rw [if_neg h]

/-- Uppercasing fixes whitespace characters. -/
theorem pyUpperChar_space {c : Char} (h : pyIsSpace c = true) : pyUpperChar c = c := by
  simp only [pyIsSpace, Bool.or_eq_true, beq_iff_eq] at h
  rcases h with ((((h | h) | h) | h) | h) | h <;> subst h <;> decide

theorem dropWhile_all_append {α : Type} (p : α → Bool) (xs ys : List α)
    (h : ∀ x ∈ xs, p x = true) :
    List.dropWhile p (xs ++ ys) = List.dropWhile p ys := by
  induction xs with
  | nil => rfl
  | cons a l ih =>
    rw [List.cons_append, List.dropWhile_cons, if_pos (h a (List.mem_cons_self a l))]
    exact ih (fun x hx => h x (List.mem_cons_of_mem _ hx))

/-- Stripping ignores extra leading and trailing whitespace. -/
theorem pyStrip_pad (s w1 w2 : List Char) (h1 : ∀ c ∈ w1, pyIsSpace c = true)
    (h2 : ∀ c ∈ w2, pyIsSpace c = true) :
    pyStrip (w1 ++ s ++ w2) = pyStrip s := by
  unfold pyStrip
  rw [List.append_assoc, dropWhile_all_append pyIsSpace w1 (s ++ w2) h1]
  by_cases hs : List.dropWhile pyIsSpace s = []
  · have hsp : ∀ x ∈ s, pyIsSpace x = true := List.dropWhile_eq_nil_iff.mp hs
    have hw2 : List.dropWhile pyIsSpace w2 = [] := List.dropWhile_eq_nil_iff.mpr h2
    rw [dropWhile_all_append pyIsSpace s w2 hsp, hs, hw2]
  · rw [List.dropWhile_append, if_neg (by simpa [List.isEmpty_iff] using hs)]
    rw [List.reverse_append,
      dropWhile_all_append pyIsSpace w2.reverse (List.dropWhile pyIsSpace s).reverse
        (fun c hc => h2 c (List.mem_reverse.mp hc))]

/-- Normalization is insensitive to lowercasing the input. -/
theorem pyNormalize_lower (s : List Char) :
    pyNormalize (s.map pyLowerChar) = pyNormalize s := by
  unfold pyNormalize
  rw [List.map_map]
  congr 1
  exact List.map_congr_left (fun c _ => pyUpperChar_pyLowerChar c)

/-- Normalization is insensitive to added leading/trailing whitespace. -/
theorem pyNormalize_pad (s w1 w2 : List Char) (h1 : ∀ c ∈ w1, pyIsSpace c = true)
    (h2 : ∀ c ∈ w2, pyIsSpace c = true) :
    pyNormalize (w1 ++ s ++ w2) = pyNormalize s := by
  unfold pyNormalize
  rw [List.map_append, List.map_append]
  have h1m : ∀ c ∈ w1.map pyUpperChar, pyIsSpace c = true := by
    intro c hc
    rcases List.mem_map.mp hc with ⟨d, hd, rfl⟩
    rw [pyUpperChar_space (h1 d hd)]
    exact h1 d hd
  have h2m : ∀ c ∈ w2.map pyUpperChar, pyIsSpace c = true := by
    intro c hc
    rcases List.mem_map.mp hc with ⟨d, hd, rfl⟩
    rw [pyUpperChar_space (h2 d hd)]
    exact h2 d hd
  exact pyStrip_pad (s.map pyUpperChar) _ _ h1m h2m

/-- k-mer generation only depends on the normalized sequence. -/
theorem generate_kmers_congr {k : Int} {s t : List Char}
    (h : pyNormalize s = pyNormalize t) : generate_kmers k s = generate_kmers k t := by
  unfold generate_kmers
  rw [h]

/-- Claim C8: matching a sequence, its lowercase form, and the sequence
    padded with leading/trailing whitespace produces the identical k-mer
    list, the identical k-mer frequency table, and identical match scores
    against every reference profile. -/
theorem C8_case_whitespace_insensitive (k : Int) (s w1 w2 : List Char)
    (h1 : ∀ c ∈ w1, pyIsSpace c = true) (h2 : ∀ c ∈ w2, pyIsSpace c = true) :
    generate_kmers k (s.map pyLowerChar) = generate_kmers k s ∧
    generate_kmers k (w1 ++ s ++ w2) = generate_kmers k s ∧
    counterOf (generate_kmers k (s.map pyLowerChar)) = counterOf (generate_kmers k s) ∧
    counterOf (generate_kmers k (w1 ++ s ++ w2)) = counterOf (generate_kmers k s) ∧
    (∀ rk : KmerCounter,
      calculate_match_score (counterOf (generate_kmers k (s.map pyLowerChar))) rk =
        calculate_match_score (counterOf (generate_kmers k s)) rk ∧
      calculate_match_score (counterOf (generate_kmers k (w1 ++ s ++ w2))) rk =
        calculate_match_score (counterOf (generate_kmers k s)) rk) := by
  have hlow : generate_kmers k (s.map pyLowerChar) = generate_kmers k s :=
    generate_kmers_congr (pyNormalize_lower s)
  have hpad : generate_kmers k (w1 ++ s ++ w2) = generate_kmers k s :=
    generate_kmers_congr (pyNormalize_pad s w1 w2 h1 h2)
  exact ⟨hlow, hpad, by rw [hlow], by rw [hpad],
    fun rk => ⟨by rw [hlow], by rw [hpad]⟩⟩

/-- Claim C8 witness: instantiated at `k = 2` on the sequence `aTgC` with
    two-space and tab padding. -/
theorem C8_case_whitespace_insensitive_witness :
    ((∀ c ∈ (" ".data : List Char), pyIsSpace c = true) ∧
      (∀ c ∈ ("\t".data : List Char), pyIsSpace c = true)) ∧
    (generate_kmers 2 ("aTgC".data.map pyLowerChar) = generate_kmers 2 "aTgC".data ∧
      generate_kmers 2 (" ".data ++ "aTgC".data ++ "\t".data) = generate_kmers 2 "aTgC".data ∧
      counterOf (generate_kmers 2 ("aTgC".data.map pyLowerChar)) =
        counterOf (generate_kmers 2 "aTgC".data) ∧
      counterOf (generate_kmers 2 (" ".data ++ "aTgC".data ++ "\t".data)) =
        counterOf (generate_kmers 2 "aTgC".data) ∧
      (∀ rk : KmerCounter,
        calculate_match_score (counterOf (generate_kmers 2 ("aTgC".data.map pyLowerChar))) rk =
          calculate_match_score (counterOf (generate_kmers 2 "aTgC".data)) rk ∧
        calculate_match_score
            (counterOf (generate_kmers 2 (" ".data ++ "aTgC".data ++ "\t".data))) rk =
          calculate_match_score (counterOf (generate_kmers 2 "aTgC".data)) rk)) :=
  ⟨⟨by decide, by decide⟩,
    C8_case_whitespace_insensitive 2 "aTgC".data " ".data "\t".data (by decide) (by decide)⟩

/-- With `k = 0` every window `s[i:i+0]` is the empty string. -/
theorem pySliceStop_self (s : List Char) (i : Nat) :
    pySliceStop s i ((i : Int) + 0) = [] := by
  unfold pySliceStop
  rw [if_neg (by omega)]
  have ht : ((i : Int) + 0).toNat = i := by omega
  rw [ht]
  apply List.drop_eq_nil_of_le
  simp [List.length_take]

theorem filterMap_const_some {α β : Type} (f : α → Option β) (b : β) (h : ∀ a, f a = some b)
    (l : List α) : l.filterMap f = List.replicate l.length b := by
  induction l with
  | nil => rfl
  | cons x xs ih =>
    rw [List.filterMap_cons, h x, List.length_cons, List.replicate_succ, ih]

/-- `generate_kmers` with `k = 0` yields one empty k-mer per window
    position — the empty window passes the valid-base test vacuously. -/
theorem generate_kmers_zero (s : List Char) :
    generate_kmers 0 s = List.replicate ((pyNormalize s).length + 1) [] := by
  show List.filterMap
      (fun i =>
        if (pySliceStop (pyNormalize s) i ((i : Int) + 0)).all validBase = true
          then some (pySliceStop (pyNormalize s) i ((i : Int) + 0)) else none)
      (List.range (((pyNormalize s).length : Int) - 0 + 1).toNat) =
    List.replicate ((pyNormalize s).length + 1) []
  have hn : (((pyNormalize s).length : Int) - 0 + 1).toNat = (pyNormalize s).length + 1 := by
    omega
  rw [hn]
  have hrep := filterMap_const_some
    (fun i =>
      if (pySliceStop (pyNormalize s) i ((i : Int) + 0)).all validBase = true
        then some (pySliceStop (pyNormalize s) i ((i : Int) + 0)) else none)
    ([] : List Char)
    (by
      intro i
      dsimp only
      rw [pySliceStop_self]
      rfl)
    (List.range ((pyNormalize s).length + 1))
  rw [hrep, List.length_range]

/-- `matches[:0]` is the empty list: a `top_n` of zero silently yields no
    output, with no error raised. -/
theorem match_sequence_topn_zero (m : eDNAMatcher) (q : List Char) :
    match_sequence m q 0 = [] := by
  unfold match_sequence
  by_cases hq : (counterOf (generate_kmers m.k q)).isEmpty
  · rw [if_pos hq]
  · rw [if_neg hq]
    unfold pySliceTo
    rw [if_neg (by omega)]
    simp

/-- Claim C9 (amended): the engine performs no validation at all:
    construction stores `k` and `min_score` unchecked; with `k = 0` every
    sliding window degenerates to the empty k-mer, which passes the base
    filter and is counted, so matching proceeds normally; and `top_n = 0`
    makes `match_sequence` return the empty list. In no case is an error
    raised. -/
theorem C9_no_validation (k : Int) (ms : ℚ) (s : List Char) (m : eDNAMatcher) :
    (eDNAMatcher.init k ms).k = k ∧
    (eDNAMatcher.init k ms).min_score = ms ∧
    generate_kmers 0 s = List.replicate ((pyNormalize s).length + 1) [] ∧
    match_sequence m s 0 = [] :=
  ⟨rfl, rfl, generate_kmers_zero s, match_sequence_topn_zero m s⟩

/-- Claim C9 counterexample: far from failing fast, a matcher constructed
    with `k = 0` builds an index of empty k-mers and then scores the
    completely unrelated query `GG` against species SP1 (built from `AT`)
    at 100.0; and `top_n = 0` quietly produces the empty list. -/
theorem C9_counterexample :
    (match_sequence (build_reference_database (eDNAMatcher.init 0 50) [⟨"SP1", "AT".data⟩] [])
        "GG".data 5).map (fun x => (x.species_id, x.matching_score)) = [("SP1", (100 : ℚ))] ∧
    match_sequence (build_reference_database (eDNAMatcher.init 0 50) [⟨"SP1", "AT".data⟩] [])
        "GG".data 0 = [] := by
  constructor
  · have hb : build_reference_database (eDNAMatcher.init 0 50) [⟨"SP1", "AT".data⟩] [] =
        eDNAMatcher.mk 0 50 [("SP1", [(([] : Kmer), 3)])] [] := rfl
    rw [hb]
    have hqk : counterOf (generate_kmers
        (eDNAMatcher.mk 0 50 [("SP1", [(([] : Kmer), 3)])] []).k "GG".data) =
        [(([] : Kmer), 3)] := by decide
    have hscore : calculate_match_score [(([] : Kmer), 3)] [(([] : Kmer), 3)] = 100 :=
      calculate_match_score_self (by decide) ⟨by decide, by decide⟩
    have hmk : mkEntry (eDNAMatcher.mk 0 50 [("SP1", [(([] : Kmer), 3)])] [])
        [(([] : Kmer), 3)] "GG".data.length "SP1" [(([] : Kmer), 3)] =
        some ⟨"SP1", "Unknown", "Unknown", "Unknown", 100, "high", 2, 1⟩ := by
      unfold mkEntry
      rw [hscore]
      rw [if_pos (show (eDNAMatcher.mk 0 50 [("SP1", [(([] : Kmer), 3)])] []).min_score ≤
        (100 : ℚ) by norm_num [eDNAMatcher.mk])]
      have hr : pyRound2 100 = 100 := by simpa using pyRound2_intCast 100
      have hg : get_confidence_level 100 = "high" := by norm_num [get_confidence_level]
      rw [hr, hg]
      rfl
    unfold match_sequence
    rw [hqk, if_neg (by decide)]
    unfold candidates
    show (pySliceTo (sortByDesc (fun x => x.matching_score)
      (List.filterMap
        (fun p => mkEntry (eDNAMatcher.mk 0 50 [("SP1", [(([] : Kmer), 3)])] [])
          [(([] : Kmer), 3)] "GG".data.length p.1 p.2)
        [("SP1", [(([] : Kmer), 3)])])) 5).map (fun x => (x.species_id, x.matching_score)) = _
    simp only [List.filterMap_cons, List.filterMap_nil, hmk]
    rfl
  · exact match_sequence_topn_zero _ _
